import Mathlib

/-!
Verification development for the `uzence-react-assignment` component library.

The repository contains two components:

* `DataTable.tsx` — a sortable, selectable table. Its logic core is:
  `getRowKey` (row identity), `sortedData` (derived sort order),
  `handleSort` (three-state sort cycle), `handleRowSelect` / `handleSelectAll`
  (selection-set updates) and `isRowSelected` (membership query).
* `InputField.tsx` — a text field whose affordances (busy indicator, clear
  button, password-visibility toggle) are shown under boolean guards.

This file shallow-embeds those functions and proves the spec's claims about
them.  Modelling choices, stated once here:

* JavaScript runtime values that can appear in a record field are modelled by
  `Value` (numbers as `Int` — the repository's data uses integers; strings;
  booleans; `null`; `undefined`).  `NaN` and floats are not modelled.
* A record (`Rec`) is an association list from field names to values; reading
  an absent field yields `Value.undefined`, as in JavaScript.
* JavaScript truthiness is `truthy`; `a || b` is `jsOr`; strict equality
  `===` is structural equality of `Value` (sound on the modelled fragment,
  which has no `NaN`); the relational `<` is `jsLt`, which compares two
  strings lexicographically and otherwise compares numeric coercions
  (`toNumber`, with `undefined ↦` no-number, i.e. a `NaN` comparison that is
  always false).
* `Array.prototype.sort(cmp)` sorts a *copy* in the source (`[...data]`), so
  the embedding `jsSort` is a pure stable insertion sort driven by the
  comparator; `sortedDataCall` additionally returns the contents of the
  `data` array after the call, to state non-mutation explicitly.
* React `useState` state of `DataTable` is the structure `TableState`; each
  event handler becomes a state transformer.
-/

/-- JavaScript runtime values storable in a record field (see module header). -/
inductive Value where
  | num : Int → Value
  | str : String → Value
  | bool : Bool → Value
  | null : Value
  | undefined : Value
deriving DecidableEq

/-- A data record: a JavaScript object, as an association list of fields. -/
abbrev Rec := List (String × Value)

/-- JavaScript property read `record[k]`: an absent field is `undefined`. -/
def getField (record : Rec) (k : String) : Value :=
  match record.lookup k with
  | some v => v
  | none => Value.undefined

/-- JavaScript truthiness of a `Value` (`0`, `""`, `false`, `null`,
`undefined` are falsy). -/
def truthy : Value → Bool
  | Value.num n => !(n == 0)
  | Value.str s => !(s == "")
  | Value.bool b => b
  | Value.null => false
  | Value.undefined => false

/-- JavaScript `a || b`: `a` when truthy, else `b`. -/
def jsOr (a b : Value) : Value :=
  if truthy a then a else b

/-- JavaScript `ToNumber` coercion, restricted to the modelled fragment:
integers stay; a string is trimmed and parsed as an integer (empty ↦ 0,
unparsable ↦ none, modelling `NaN`); booleans map to 0/1; `null ↦ 0`;
`undefined ↦` none (`NaN`). -/
def toNumber : Value → Option Int
  | Value.num n => some n
  | Value.str s => if s.trim = "" then some 0 else s.trim.toInt?
  | Value.bool b => some (if b then 1 else 0)
  | Value.null => some 0
  | Value.undefined => none

/-- JavaScript relational `<`: two strings compare lexicographically;
otherwise both sides are coerced with `toNumber`, and any `NaN`
(`none`) makes the comparison false. -/
def jsLt (a b : Value) : Bool :=
  match a, b with
  | Value.str x, Value.str y => decide (x < y)
  | a, b =>
    match toNumber a, toNumber b with
    | some x, some y => decide (x < y)
    | _, _ => false

/-- `SortDirection` from DataTable.tsx line 25 (`'asc' | 'desc'`); the
`null` member of the TypeScript union is `Option.none` at use sites. -/
inductive SortDirection where
  | asc : SortDirection
  | desc : SortDirection
deriving DecidableEq

/-- Column descriptor (DataTable.tsx lines 4–10).  `key` is the field name
(`keyof T`), `sortable?` defaults to `false` when absent.  The presentational
fields `width` and `render` are not part of the embedded logic (they only
affect markup) and are omitted. -/
structure Column where
  key : String
  title : String
  sortable : Bool
deriving DecidableEq

/-- The row-key selector prop `rowKey : keyof T | ((record : T) => string | number)`
(default `'id'`): either a field name or a caller-supplied extractor. -/
inductive RowKeySelector where
  | field : String → RowKeySelector
  | func : (Rec → Value) → RowKeySelector

/-- `getRowKey` (DataTable.tsx lines 44–49): a function selector is applied
to the record and trusted; a field-name selector reads the field and falls
back to the positional index when the value is falsy (`record[rowKey] || index`). -/
def getRowKey (rowKey : RowKeySelector) (record : Rec) (index : Int) : Value :=
  match rowKey with
  | RowKeySelector.func f => f record
  | RowKeySelector.field k => jsOr (getField record k) (Value.num index)

/-- The `useState` state of `DataTable` (lines 39–41): the selected rows,
the active sort column (or `none`) and the active sort direction (or `none`). -/
structure TableState where
  selectedRows : List Rec
  sortColumn : Option String
  sortDirection : Option SortDirection
deriving DecidableEq

/-- The comparator passed to `.sort` inside `sortedData` (lines 54–60):
`0` on strictly equal values, else `-1`/`1` by `<` on the column's values,
negated when the direction is descending. -/
def compareRows (sortColumn : String) (sortDirection : SortDirection) (a b : Rec) : Int :=
  let aValue := getField a sortColumn
  let bValue := getField b sortColumn
  if aValue == bValue then 0
  else
    let comparison : Int := if jsLt aValue bValue then -1 else 1
    if sortDirection == SortDirection.asc then comparison else -comparison

/-- Stable insertion of `x` into `l` under comparator `cmp`: `x` is placed
before the first element `y` with `cmp x y ≤ 0`. -/
def insertCmp (cmp : α → α → Int) (x : α) : List α → List α
  | [] => [x]
  | y :: ys => if cmp x y ≤ 0 then x :: y :: ys else y :: insertCmp cmp x ys

/-- Model of `Array.prototype.sort(cmp)` on the modelled (copied) array: a
stable insertion sort.  For a consistent comparator this agrees with the
ECMAScript specification's sort contract; for an inconsistent comparator
ECMAScript leaves the order implementation-defined and this picks one. -/
def jsSort (cmp : α → α → Int) : List α → List α
  | [] => []
  | x :: xs => insertCmp cmp x (jsSort cmp xs)

/-- The `sortedData` memo (DataTable.tsx lines 52–61), embedded as a pure
call.  JavaScript's `.sort` mutates its receiver and returns it; here the
receiver is the spread copy `[...data]`, never `data` itself, so the
embedding returns the pair (value of the memo, contents of the `data` array
after evaluation) — the second component is `data` unchanged.  The guard
`if (!sortColumn || !sortDirection) return data` is falsy-based, so the
empty-string column name also takes the passthrough branch. -/
def sortedDataCall (data : List Rec) (sortColumn : Option String)
    (sortDirection : Option SortDirection) : List Rec × List Rec :=
  match sortColumn, sortDirection with
  | some c, some d =>
    if c == "" then (data, data)
    else (jsSort (compareRows c d) data, data)
  | _, _ => (data, data)

/-- The current (post-sort) view: the value of the `sortedData` memo. -/
def sortedData (data : List Rec) (sortColumn : Option String)
    (sortDirection : Option SortDirection) : List Rec :=
  (sortedDataCall data sortColumn sortDirection).1

/-- `handleSort` (DataTable.tsx lines 64–77) as a state transformer: no-op on
a non-sortable column; on the active sort column cycle
asc → desc → (none, none) → asc; on any other column set it ascending. -/
def handleSort (column : Column) (s : TableState) : TableState :=
  if !column.sortable then s
  else if s.sortColumn == some column.key then
    if s.sortDirection == some SortDirection.asc then
      { s with sortDirection := some SortDirection.desc }
    else if s.sortDirection == some SortDirection.desc then
      { s with sortDirection := none, sortColumn := none }
    else
      { s with sortDirection := some SortDirection.asc }
  else
    { s with sortColumn := some column.key, sortDirection := some SortDirection.asc }

/-- `handleRowSelect` (DataTable.tsx lines 80–91) as a state transformer:
checking appends the record; unchecking filters out every row whose resolved
key (at index 0) equals the record's resolved key (at index 0). -/
def handleRowSelect (rowKey : RowKeySelector) (record : Rec) (checked : Bool)
    (s : TableState) : TableState :=
  let newSelectedRows : List Rec :=
    if checked then s.selectedRows ++ [record]
    else s.selectedRows.filter
      (fun row => !(getRowKey rowKey row 0 == getRowKey rowKey record 0))
  { s with selectedRows := newSelectedRows }

/-- `handleSelectAll` (DataTable.tsx lines 94–98) as a state transformer:
checking replaces the selection with a copy of the current sorted view;
unchecking replaces it with the empty list.  The prior selection is not read. -/
def handleSelectAll (data : List Rec) (checked : Bool) (s : TableState) : TableState :=
  { s with selectedRows :=
      if checked then sortedData data s.sortColumn s.sortDirection else [] }

/-- `isRowSelected` (DataTable.tsx lines 101–105): true iff some selected row
resolves (at index 0) to the same key as `record` (at index 0). -/
def isRowSelected (rowKey : RowKeySelector) (selectedRows : List Rec) (record : Rec) : Bool :=
  selectedRows.any (fun row => getRowKey rowKey row 0 == getRowKey rowKey record 0)

/-- `n` successive header activations of column `c` starting from state `s`. -/
def iterSort (c : Column) (s : TableState) : Nat → TableState
  | 0 => s
  | n + 1 => handleSort c (iterSort c s n)

/-- A whole sequence of header-activation events, applied in order. -/
def applySortEvents (cols : List Column) (s : TableState) : TableState :=
  cols.foldl (fun st c => handleSort c st) s

/-! ## InputField (`part_001`, InputField.tsx) -/

/-- The `type` prop of `InputField` (line 180). -/
inductive InputType where
  | text : InputType
  | password : InputType
  | email : InputType
  | number : InputType
deriving DecidableEq

/-- The `InputField` props that feed the affordance guards (lines 168–188).
Purely stylistic props (`variant`, `size`, labels, ids, callbacks) do not
enter those guards and are omitted.  `value` defaults to `""`. -/
structure InputFieldProps where
  value : String
  disabled : Bool
  invalid : Bool
  loading : Bool
  type : InputType
  clearable : Bool
  passwordToggle : Bool
deriving DecidableEq

/-- Guard of the loading spinner (InputField.tsx line 337): `loading && …`. -/
def showLoadingIndicator (p : InputFieldProps) : Bool :=
  p.loading

/-- Guard of the clear button (InputField.tsx line 346):
`clearable && value && !disabled && !loading` (a string is truthy iff
non-empty). -/
def showClearButton (p : InputFieldProps) : Bool :=
  p.clearable && !(p.value == "") && !p.disabled && !p.loading

/-- Guard of the password-visibility toggle (InputField.tsx line 361):
`(passwordToggle || type === 'password') && !disabled && !loading`. -/
def showPasswordToggle (p : InputFieldProps) : Bool :=
  (p.passwordToggle || p.type == InputType.password) && !p.disabled && !p.loading

/-! ## Helper lemmas -/

/-- `handleSort` only updates the sort fields; the selection is untouched. -/
theorem handleSort_selectedRows (c : Column) (s : TableState) :
    (handleSort c s).selectedRows = s.selectedRows := by
  unfold handleSort
  split_ifs <;> rfl

/-- A whole sequence of header activations leaves the selection untouched. -/
theorem applySortEvents_selectedRows (cols : List Column) (s : TableState) :
    (applySortEvents cols s).selectedRows = s.selectedRows := by
  induction cols generalizing s with
  | nil => rfl
  | cons c cs ih =>
    calc (applySortEvents (c :: cs) s).selectedRows
        = (applySortEvents cs (handleSort c s)).selectedRows := rfl
      _ = (handleSort c s).selectedRows := ih (handleSort c s)
      _ = s.selectedRows := handleSort_selectedRows c s

/-- The three-state cycle of `handleSort` on one sortable column, computed
state by state from the initial unsorted state. -/
theorem iterSort_cycle (c : Column) (sel : List Rec) (h : c.sortable = true) :
    iterSort c ⟨sel, none, none⟩ 1 = ⟨sel, some c.key, some SortDirection.asc⟩ ∧
    iterSort c ⟨sel, none, none⟩ 2 = ⟨sel, some c.key, some SortDirection.desc⟩ ∧
    iterSort c ⟨sel, none, none⟩ 3 = ⟨sel, none, none⟩ ∧
    iterSort c ⟨sel, none, none⟩ 4 = ⟨sel, some c.key, some SortDirection.asc⟩ := by
  have h1 : iterSort c ⟨sel, none, none⟩ 1 = ⟨sel, some c.key, some SortDirection.asc⟩ := by
    simp [iterSort, handleSort, h]
  have h2 : iterSort c ⟨sel, none, none⟩ 2 = ⟨sel, some c.key, some SortDirection.desc⟩ := by
    show handleSort c (iterSort c ⟨sel, none, none⟩ 1) = _
    rw [h1]; simp [handleSort, h]
  have h3 : iterSort c ⟨sel, none, none⟩ 3 = ⟨sel, none, none⟩ := by
    show handleSort c (iterSort c ⟨sel, none, none⟩ 2) = _
    rw [h2]; simp [handleSort, h]
  have h4 : iterSort c ⟨sel, none, none⟩ 4 = ⟨sel, some c.key, some SortDirection.asc⟩ := by
    show handleSort c (iterSort c ⟨sel, none, none⟩ 3) = _
    rw [h3]; simp [handleSort, h]
  exact ⟨h1, h2, h3, h4⟩

/-! ## Concrete fixtures used by witnesses -/

/-- A sortable `id` column, as in the repository's stories. -/
def colId : Column := ⟨"id", "ID", true⟩

/-- A sortable `name` column, as in the repository's stories. -/
def colName : Column := ⟨"name", "Name", true⟩

/-- A record that lacks the default `id` field. -/
def recNoIdA : Rec := [("name", Value.str "alice")]

/-- A second, distinct record that lacks the default `id` field. -/
def recNoIdB : Rec := [("name", Value.str "bob")]

/-- Two-row data set with numeric `id` fields, out of order. -/
def dataIds : List Rec := [[("id", Value.num 2)], [("id", Value.num 1)]]

/-! ## Claims -/

/-- C1.  Sort cycle closure: for every column `c` with `sortable = true` and
any selection, starting from sort state `(none, none)`, three successive
header activations of `c` yield `(c.key, asc)`, then `(c.key, desc)`, then
`(none, none)`; a fourth yields `(c.key, asc)` again. -/
theorem sort_cycle_closure (c : Column) (sel : List Rec) (h : c.sortable = true) :
    iterSort c ⟨sel, none, none⟩ 1 = ⟨sel, some c.key, some SortDirection.asc⟩ ∧
    iterSort c ⟨sel, none, none⟩ 2 = ⟨sel, some c.key, some SortDirection.desc⟩ ∧
    iterSort c ⟨sel, none, none⟩ 3 = ⟨sel, none, none⟩ ∧
    iterSort c ⟨sel, none, none⟩ 4 = ⟨sel, some c.key, some SortDirection.asc⟩ :=
  iterSort_cycle c sel h

/-- Witness for C1 at the concrete sortable `id` column and empty selection. -/
theorem sort_cycle_closure_witness :
    colId.sortable = true ∧
    (iterSort colId ⟨[], none, none⟩ 1 = ⟨[], some colId.key, some SortDirection.asc⟩ ∧
     iterSort colId ⟨[], none, none⟩ 2 = ⟨[], some colId.key, some SortDirection.desc⟩ ∧
     iterSort colId ⟨[], none, none⟩ 3 = ⟨[], none, none⟩ ∧
     iterSort colId ⟨[], none, none⟩ 4 = ⟨[], some colId.key, some SortDirection.asc⟩) :=
  ⟨rfl, sort_cycle_closure colId [] rfl⟩

/-- C2.  Sort-switch reset: activating sortable column `c2` while a distinct
column key `c1.key` is the active sort column, in either direction, yields
`(c2.key, asc)` directly, without touching `c1`'s cycle position. -/
theorem sort_switch_reset (c1 c2 : Column) (sel : List Rec) (d : SortDirection)
    (h1 : c1.sortable = true) (h2 : c2.sortable = true) (hk : c1.key ≠ c2.key) :
    handleSort c2 ⟨sel, some c1.key, some d⟩ = ⟨sel, some c2.key, some SortDirection.asc⟩ := by
  have hne : ¬((some c1.key : Option String) == some c2.key) = true := by
    simp [hk]
  simp [handleSort, h2, hne]

/-- Witness for C2: switching from an active descending `id` sort to the
`name` column goes directly to `(name, asc)`. -/
theorem sort_switch_reset_witness :
    colId.sortable = true ∧ colName.sortable = true ∧ colId.key ≠ colName.key ∧
    handleSort colName ⟨[], some colId.key, some SortDirection.desc⟩ =
      ⟨[], some colName.key, some SortDirection.asc⟩ :=
  ⟨rfl, rfl, by decide, sort_switch_reset colId colName [] SortDirection.desc rfl rfl (by decide)⟩

/-- C3.  Selection is independent of sort order: any sequence of header
activations leaves the selected-rows state exactly unchanged, so membership
of every record (by resolved row key) is the same before and after
re-sorting; among the event handlers only `handleRowSelect` and
`handleSelectAll` write the selection state. -/
theorem selection_independent_of_sort (cols : List Column) (s : TableState) :
    (applySortEvents cols s).selectedRows = s.selectedRows ∧
    ∀ (rk : RowKeySelector) (r : Rec),
      isRowSelected rk (applySortEvents cols s).selectedRows r =
        isRowSelected rk s.selectedRows r := by
  refine ⟨applySortEvents_selectedRows cols s, fun rk r => ?_⟩
  rw [applySortEvents_selectedRows cols s]

/-- C4.  Passthrough when unsorted: with sort column `none` or sort
direction `none` the view is `data` itself, in input order; in particular
after three activations of any sortable column the view is the input order
again. -/
theorem unsorted_passthrough (data : List Rec) (sc : Option String)
    (sd : Option SortDirection) (h : sc = none ∨ sd = none) :
    sortedData data sc sd = data ∧
    ∀ (c : Column) (sel : List Rec), c.sortable = true →
      sortedData data (iterSort c ⟨sel, none, none⟩ 3).sortColumn
        (iterSort c ⟨sel, none, none⟩ 3).sortDirection = data := by
  constructor
  · rcases h with rfl | rfl
    · rfl
    · cases sc <;> rfl
  · intro c sel hc
    rw [(iterSort_cycle c sel hc).2.2.1]
    rfl

/-- Witness for C4: passthrough at `(none, asc)` on concrete data, and input
order restored after three activations of the sortable `id` column. -/
theorem unsorted_passthrough_witness :
    ((none : Option String) = none ∨ (some SortDirection.asc : Option SortDirection) = none) ∧
    sortedData dataIds none (some SortDirection.asc) = dataIds ∧
    colId.sortable = true ∧
    sortedData dataIds (iterSort colId ⟨[], none, none⟩ 3).sortColumn
      (iterSort colId ⟨[], none, none⟩ 3).sortDirection = dataIds :=
  ⟨Or.inl rfl,
   (unsorted_passthrough dataIds none (some SortDirection.asc) (Or.inl rfl)).1,
   rfl,
   (unsorted_passthrough dataIds none (some SortDirection.asc) (Or.inl rfl)).2 colId [] rfl⟩

/-- C5.  `handleSelectAll` semantics: checking replaces the selection with
the current (post-sort) view — so its size is the view's size — and
unchecking empties it; in both cases the prior selection inside `s` is
ignored entirely. -/
theorem toggleAll_reflects_view (data : List Rec) (s : TableState) :
    (handleSelectAll data true s).selectedRows =
      sortedData data s.sortColumn s.sortDirection ∧
    (handleSelectAll data true s).selectedRows.length =
      (sortedData data s.sortColumn s.sortDirection).length ∧
    (handleSelectAll data false s).selectedRows = [] :=
  ⟨rfl, rfl, rfl⟩

/-- C6.  `isRowSelected` contract: true exactly when some element of the
selection resolves (at index 0, as in the source) to the same row key as the
queried record. -/
theorem isSelected_contract (rk : RowKeySelector) (S : List Rec) (r : Rec) :
    isRowSelected rk S r = true ↔
      ∃ row ∈ S, getRowKey rk row 0 = getRowKey rk r 0 := by
  simp [isRowSelected, List.any_eq_true]

/-- C7.  Row-key fallback for a field-name selector: a present, truthy field
value is the key; an absent or falsy value falls back to the positional
index. -/
theorem rowKey_field_fallback (f : String) (r : Rec) (i : Int) :
    (truthy (getField r f) = true →
      getRowKey (RowKeySelector.field f) r i = getField r f) ∧
    (truthy (getField r f) = false →
      getRowKey (RowKeySelector.field f) r i = Value.num i) := by
  constructor <;> intro h <;> simp [getRowKey, jsOr, h]

/-- Witness for C7: a record lacking the default `id` field, at index 2,
resolves to key `2`. -/
theorem rowKey_field_fallback_witness :
    truthy (getField recNoIdA "id") = false ∧
    getRowKey (RowKeySelector.field "id") recNoIdA 2 = Value.num 2 :=
  ⟨rfl, (rowKey_field_fallback "id" recNoIdA 2).2 rfl⟩

/-- C9.  Key-collision aliasing: under a field-name selector, two distinct
records whose value at that field is absent or falsy both resolve to the
fixed key `0` (the index the handlers always pass), so selecting the first
makes the second read as selected, and unchecking the second removes the
first from the selection as well. -/
theorem key_collision_aliasing (f : String) (r1 r2 : Rec) (s : TableState)
    (h1 : truthy (getField r1 f) = false) (h2 : truthy (getField r2 f) = false)
    (hne : r1 ≠ r2) :
    getRowKey (RowKeySelector.field f) r1 0 = Value.num 0 ∧
    getRowKey (RowKeySelector.field f) r2 0 = Value.num 0 ∧
    isRowSelected (RowKeySelector.field f)
      (handleRowSelect (RowKeySelector.field f) r1 true s).selectedRows r2 = true ∧
    r1 ∉ (handleRowSelect (RowKeySelector.field f) r2 false
      (handleRowSelect (RowKeySelector.field f) r1 true s)).selectedRows := by
  have k1 : getRowKey (RowKeySelector.field f) r1 0 = Value.num 0 := by
    simp [getRowKey, jsOr, h1]
  have k2 : getRowKey (RowKeySelector.field f) r2 0 = Value.num 0 := by
    simp [getRowKey, jsOr, h2]
  refine ⟨k1, k2, ?_, ?_⟩
  · show (s.selectedRows ++ [r1]).any
      (fun row => getRowKey (RowKeySelector.field f) row 0 ==
        getRowKey (RowKeySelector.field f) r2 0) = true
    rw [List.any_eq_true]
    exact ⟨r1, List.mem_append_right _ (List.mem_singleton.mpr rfl), by rw [k1, k2]; rfl⟩
  · show r1 ∉ (s.selectedRows ++ [r1]).filter
      (fun row => !(getRowKey (RowKeySelector.field f) row 0 ==
        getRowKey (RowKeySelector.field f) r2 0))
    intro hmem
    have hp := (List.mem_filter.mp hmem).2
    rw [k1, k2] at hp
    simp at hp

/-- Witness for C9 at two distinct concrete records that both lack the `id`
field, starting from the empty selection. -/
theorem key_collision_aliasing_witness :
    truthy (getField recNoIdA "id") = false ∧
    truthy (getField recNoIdB "id") = false ∧
    recNoIdA ≠ recNoIdB ∧
    (getRowKey (RowKeySelector.field "id") recNoIdA 0 = Value.num 0 ∧
     getRowKey (RowKeySelector.field "id") recNoIdB 0 = Value.num 0 ∧
     isRowSelected (RowKeySelector.field "id")
       (handleRowSelect (RowKeySelector.field "id") recNoIdA true
         ⟨[], none, none⟩).selectedRows recNoIdB = true ∧
     recNoIdA ∉ (handleRowSelect (RowKeySelector.field "id") recNoIdB false
       (handleRowSelect (RowKeySelector.field "id") recNoIdA true
         ⟨[], none, none⟩)).selectedRows) :=
  ⟨rfl, rfl, by decide,
   key_collision_aliasing "id" recNoIdA recNoIdB ⟨[], none, none⟩ rfl rfl (by decide)⟩

/-! ## Order lemmas about the sort model -/

/-- Inserting under the comparator is a permutation of consing. -/
theorem insertCmp_perm (cmp : α → α → Int) (x : α) (l : List α) :
    List.Perm (insertCmp cmp x l) (x :: l) := by
  induction l with
  | nil => exact List.Perm.refl _
  | cons y ys ih =>
    by_cases h : cmp x y ≤ 0
    · simp only [insertCmp, if_pos h]
      exact List.Perm.refl _
    · simp only [insertCmp, if_neg h]
      exact (List.Perm.cons y ih).trans (List.Perm.swap x y ys)

/-- The sort model returns a permutation of its input. -/
theorem jsSort_perm (cmp : α → α → Int) (l : List α) :
    List.Perm (jsSort cmp l) l := by
  induction l with
  | nil => exact List.Perm.refl _
  | cons x xs ih =>
    exact (insertCmp_perm cmp x (jsSort cmp xs)).trans (List.Perm.cons x ih)

/-- Inserting into a comparator-sorted list keeps it sorted, assuming
totality of the comparator between `x` and the list's elements and
transitivity on the elements involved. -/
theorem insertCmp_pairwise (cmp : α → α → Int) (x : α) :
    ∀ l : List α, l.Pairwise (fun a b => cmp a b ≤ 0) →
    (∀ y ∈ l, cmp x y ≤ 0 ∨ cmp y x ≤ 0) →
    (∀ y ∈ l, ∀ z ∈ l, cmp x y ≤ 0 → cmp y z ≤ 0 → cmp x z ≤ 0) →
    (insertCmp cmp x l).Pairwise (fun a b => cmp a b ≤ 0)
  | [], _, _, _ => by simp [insertCmp]
  | y :: ys, hl, htot, htrans => by
    rcases List.pairwise_cons.mp hl with ⟨hy, hys⟩
    by_cases h : cmp x y ≤ 0
    · simp only [insertCmp, if_pos h]
      refine List.pairwise_cons.mpr ⟨?_, hl⟩
      intro z hz
      rcases List.mem_cons.mp hz with rfl | hz'
      · exact h
      · exact htrans y (List.mem_cons_self y ys) z (List.mem_cons_of_mem y hz') h (hy z hz')
    · simp only [insertCmp, if_neg h]
      refine List.pairwise_cons.mpr ⟨?_, ?_⟩
      · intro z hz
        have hz' := (insertCmp_perm cmp x ys).mem_iff.mp hz
        rcases List.mem_cons.mp hz' with rfl | hz''
        · rcases htot y (List.mem_cons_self y ys) with hxy | hyx
          · exact absurd hxy h
          · exact hyx
        · exact hy z hz''
      · refine insertCmp_pairwise cmp x ys hys ?_ ?_
        · intro a ha; exact htot a (List.mem_cons_of_mem y ha)
        · intro a ha b hb
          exact htrans a (List.mem_cons_of_mem y ha) b (List.mem_cons_of_mem y hb)

/-- The sort model sorts, assuming totality and transitivity of the
comparator on the input's elements. -/
theorem jsSort_pairwise (cmp : α → α → Int) :
    ∀ l : List α,
    (∀ a ∈ l, ∀ b ∈ l, cmp a b ≤ 0 ∨ cmp b a ≤ 0) →
    (∀ a ∈ l, ∀ b ∈ l, ∀ c ∈ l, cmp a b ≤ 0 → cmp b c ≤ 0 → cmp a c ≤ 0) →
    (jsSort cmp l).Pairwise (fun a b => cmp a b ≤ 0)
  | [], _, _ => by simp [jsSort]
  | x :: xs, htot, htrans => by
    have hmem : ∀ y ∈ jsSort cmp xs, y ∈ xs :=
      fun y hy => (jsSort_perm cmp xs).mem_iff.mp hy
    refine insertCmp_pairwise cmp x (jsSort cmp xs) (jsSort_pairwise cmp xs ?_ ?_) ?_ ?_
    · intro a ha b hb
      exact htot a (List.mem_cons_of_mem x ha) b (List.mem_cons_of_mem x hb)
    · intro a ha b hb c hc
      exact htrans a (List.mem_cons_of_mem x ha) b (List.mem_cons_of_mem x hb)
        c (List.mem_cons_of_mem x hc)
    · intro y hy
      exact htot x (List.mem_cons_self x xs) y (List.mem_cons_of_mem x (hmem y hy))
    · intro y hy z hz
      exact htrans x (List.mem_cons_self x xs) y (List.mem_cons_of_mem x (hmem y hy))
        z (List.mem_cons_of_mem x (hmem z hz))

/-- On numeric values `jsLt` is the integer order. -/
theorem jsLt_num (p q : Int) : jsLt (Value.num p) (Value.num q) = decide (p < q) := rfl

/-- On rows whose sort-column values are numbers, the ascending comparator
is non-positive exactly for `≤` on those numbers. -/
theorem compareRows_asc_le (c : String) (a b : Rec) (p q : Int)
    (ha : getField a c = Value.num p) (hb : getField b c = Value.num q) :
    compareRows c SortDirection.asc a b ≤ 0 ↔ p ≤ q := by
  by_cases hpq : p = q
  · simp [compareRows, ha, hb, jsLt_num, hpq]
  · by_cases hlt : p < q
    · simp [compareRows, ha, hb, jsLt_num, hpq, hlt]
      try omega
    · simp [compareRows, ha, hb, jsLt_num, hpq, hlt]
      try omega

/-- On rows whose sort-column values are numbers, the descending comparator
is non-positive exactly for `≥` on those numbers. -/
theorem compareRows_desc_le (c : String) (a b : Rec) (p q : Int)
    (ha : getField a c = Value.num p) (hb : getField b c = Value.num q) :
    compareRows c SortDirection.desc a b ≤ 0 ↔ q ≤ p := by
  by_cases hpq : p = q
  · simp [compareRows, ha, hb, jsLt_num, hpq]
  · by_cases hlt : p < q
    · simp [compareRows, ha, hb, jsLt_num, hpq, hlt]
      try omega
    · simp [compareRows, ha, hb, jsLt_num, hpq, hlt]
      try omega

/-- On rows whose sort-column values are strings, the ascending comparator
is non-positive exactly for lexicographic `≤` on those strings. -/
theorem compareRows_asc_le_str (c : String) (a b : Rec) (x y : String)
    (ha : getField a c = Value.str x) (hb : getField b c = Value.str y) :
    compareRows c SortDirection.asc a b ≤ 0 ↔ x ≤ y := by
  by_cases hxy : x = y
  · subst hxy
    simp only [compareRows, ha, hb, beq_self_eq_true, if_true]
    exact iff_of_true le_rfl le_rfl
  · have h1 : (Value.str x == Value.str y) = false := by simp [hxy]
    by_cases hl : x < y
    · have h2 : decide (x < y) = true := decide_eq_true hl
      simp only [compareRows, ha, hb, jsLt, h1, h2, Bool.false_eq_true, beq_self_eq_true,
        eq_self_iff_true, if_true, if_false]
      exact iff_of_true (by norm_num) (le_of_lt hl)
    · have h2 : decide (x < y) = false := decide_eq_false hl
      simp only [compareRows, ha, hb, jsLt, h1, h2, Bool.false_eq_true, beq_self_eq_true,
        eq_self_iff_true, if_true, if_false]
      exact iff_of_false (by norm_num) (fun h => hl (lt_of_le_of_ne h hxy))

/-- On rows whose sort-column values are strings, the descending comparator
is non-positive exactly for lexicographic `≥` on those strings. -/
theorem compareRows_desc_le_str (c : String) (a b : Rec) (x y : String)
    (ha : getField a c = Value.str x) (hb : getField b c = Value.str y) :
    compareRows c SortDirection.desc a b ≤ 0 ↔ y ≤ x := by
  have hd : (SortDirection.desc == SortDirection.asc) = false := rfl
  by_cases hxy : x = y
  · subst hxy
    simp only [compareRows, ha, hb, beq_self_eq_true, if_true]
    exact iff_of_true le_rfl le_rfl
  · have h1 : (Value.str x == Value.str y) = false := by simp [hxy]
    by_cases hl : x < y
    · have h2 : decide (x < y) = true := decide_eq_true hl
      simp only [compareRows, ha, hb, jsLt, h1, h2, hd, Bool.false_eq_true,
        eq_self_iff_true, if_true, if_false]
      exact iff_of_false (by norm_num) (fun h => lt_irrefl x (lt_of_lt_of_le hl h))
    · have h2 : decide (x < y) = false := decide_eq_false hl
      simp only [compareRows, ha, hb, jsLt, h1, h2, hd, Bool.false_eq_true,
        eq_self_iff_true, if_true, if_false]
      exact iff_of_true (by norm_num) (le_of_not_lt hl)

/-- Two-row data set keyed by the empty-string field name, out of order. -/
def dataEmptyKey : List Rec := [[("", Value.num 2)], [("", Value.num 1)]]

/-- Counterexample to C8 as frozen.  The sort state `(some "", some asc)`
has column and direction both not `none`, yet the memo's falsy guard
(`if (!sortColumn || !sortDirection) return data`) treats the empty-string
column name as falsy and returns the input itself: on `dataEmptyKey` the
view is the unsorted input, not a sequence sorted by the declared field
(under the source's own comparator). -/
theorem computeView_no_mutation_counterexample :
    (some "" : Option String) ≠ none ∧
    (some SortDirection.asc : Option SortDirection) ≠ none ∧
    sortedData dataEmptyKey (some "") (some SortDirection.asc) = dataEmptyKey ∧
    ¬ (sortedData dataEmptyKey (some "") (some SortDirection.asc)).Pairwise
        (fun a b => compareRows "" SortDirection.asc a b ≤ 0) :=
  ⟨by decide, by decide, rfl, by decide⟩

/-- C8, amended.  For an active sort state whose column name is non-empty
(the empty-string column name is falsy, so the source's guard makes the memo
a passthrough — see the counterexample), `sortedData` never mutates its
input: the `data` array is unchanged (same elements, same order) after the
call, the view is a permutation of `data`, and whenever the declared field
carries order-supporting values — all numbers or all strings, the cases in
which the source's comparator induces a consistent total order; the spec
leaves mixed or unorderable values unspecified — the view is sorted by that
field under the comparator. -/
theorem computeView_no_mutation (data : List Rec) (c : String) (d : SortDirection)
    (hc : c ≠ "") :
    (sortedDataCall data (some c) (some d)).2 = data ∧
    List.Perm (sortedData data (some c) (some d)) data ∧
    (((∀ r ∈ data, ∃ n, getField r c = Value.num n) ∨
      (∀ r ∈ data, ∃ t, getField r c = Value.str t)) →
      (sortedData data (some c) (some d)).Pairwise
        (fun a b => compareRows c d a b ≤ 0)) := by
  have hguard : ((c == "") : Bool) = false := by
    simp [hc]
  have hview : sortedData data (some c) (some d) = jsSort (compareRows c d) data := by
    simp [sortedData, sortedDataCall, hguard]
  refine ⟨?_, ?_, ?_⟩
  · simp [sortedDataCall, hguard]
  · rw [hview]
    exact jsSort_perm (compareRows c d) data
  · intro hord
    rw [hview]
    refine jsSort_pairwise (compareRows c d) data ?_ ?_
    · intro a ha b hb
      rcases hord with hnum | hstr
      · obtain ⟨p, hp⟩ := hnum a ha
        obtain ⟨q, hq⟩ := hnum b hb
        cases d
        · rw [compareRows_asc_le c a b p q hp hq, compareRows_asc_le c b a q p hq hp]
          omega
        · rw [compareRows_desc_le c a b p q hp hq, compareRows_desc_le c b a q p hq hp]
          omega
      · obtain ⟨p, hp⟩ := hstr a ha
        obtain ⟨q, hq⟩ := hstr b hb
        cases d
        · rw [compareRows_asc_le_str c a b p q hp hq, compareRows_asc_le_str c b a q p hq hp]
          exact le_total p q
        · rw [compareRows_desc_le_str c a b p q hp hq, compareRows_desc_le_str c b a q p hq hp]
          exact le_total q p
    · intro a ha b hb e he
      rcases hord with hnum | hstr
      · obtain ⟨p, hp⟩ := hnum a ha
        obtain ⟨q, hq⟩ := hnum b hb
        obtain ⟨u, hu⟩ := hnum e he
        cases d
        · rw [compareRows_asc_le c a b p q hp hq, compareRows_asc_le c b e q u hq hu,
            compareRows_asc_le c a e p u hp hu]
          omega
        · rw [compareRows_desc_le c a b p q hp hq, compareRows_desc_le c b e q u hq hu,
            compareRows_desc_le c a e p u hp hu]
          omega
      · obtain ⟨p, hp⟩ := hstr a ha
        obtain ⟨q, hq⟩ := hstr b hb
        obtain ⟨u, hu⟩ := hstr e he
        cases d
        · rw [compareRows_asc_le_str c a b p q hp hq, compareRows_asc_le_str c b e q u hq hu,
            compareRows_asc_le_str c a e p u hp hu]
          exact fun h1 h2 => le_trans h1 h2
        · rw [compareRows_desc_le_str c a b p q hp hq, compareRows_desc_le_str c b e q u hq hu,
            compareRows_desc_le_str c a e p u hp hu]
          exact fun h1 h2 => le_trans h2 h1

/-- Witness for the amended C8 on a concrete two-row data set with numeric
ids, sorted ascending on `id`. -/
theorem computeView_no_mutation_witness :
    ("id" : String) ≠ "" ∧
    (sortedDataCall dataIds (some "id") (some SortDirection.asc)).2 = dataIds ∧
    List.Perm (sortedData dataIds (some "id") (some SortDirection.asc)) dataIds ∧
    (sortedData dataIds (some "id") (some SortDirection.asc)).Pairwise
      (fun a b => compareRows "id" SortDirection.asc a b ≤ 0) := by
  have h := computeView_no_mutation dataIds "id" SortDirection.asc (by decide)
  refine ⟨by decide, h.1, h.2.1, h.2.2 (Or.inl ?_)⟩
  intro r hr
  rcases List.mem_cons.mp hr with rfl | hr
  · exact ⟨2, rfl⟩
  rcases List.mem_cons.mp hr with rfl | hr
  · exact ⟨1, rfl⟩
  · exact absurd hr (List.not_mem_nil r)

/-- C10.  Field State Projector affordances: the busy indicator is shown iff
`loading`; the clear affordance iff `clearable`, non-empty `value`, not
`disabled` and not `loading`; the visibility toggle iff `passwordToggle` or
`type = password`, and not `disabled` and not `loading`. -/
theorem fieldState_affordances (p : InputFieldProps) :
    (showLoadingIndicator p = true ↔ p.loading = true) ∧
    (showClearButton p = true ↔
      (p.clearable = true ∧ p.value ≠ "" ∧ p.disabled = false ∧ p.loading = false)) ∧
    (showPasswordToggle p = true ↔
      ((p.passwordToggle = true ∨ p.type = InputType.password) ∧
        p.disabled = false ∧ p.loading = false)) := by
  obtain ⟨v, dis, inv, lo, ty, cl, pt⟩ := p
  refine ⟨Iff.rfl, ?_, ?_⟩ <;>
    cases dis <;> cases lo <;> cases cl <;> cases pt <;> cases ty <;>
      simp [showClearButton, showPasswordToggle]
